/-
Verification of the judge-result aggregation / folder-taxonomy ETL pipeline
of the tech_summary_llm_arena repository.

The two scripts under verification are
  * scripts/generate_summaries_csv.py  (naming-convention decoder, schema
    flattener, corpus walker / row builder, CSV emitter), and
  * scripts/calculate_average_scores.py  (tabular aggregator).

Embedding conventions:
  * Python strings are embedded as `List Char` (`Str`); Python string
    operations (replace, split, join, endswith, sorted, regex matching)
    are re-implemented on `List Char` following CPython semantics.
  * Parsed JSON documents are embedded as the mutual inductive `JVal`
    (with `JObj` for object nodes and `JList` for array nodes); numeric
    leaves are modelled as integers, which covers every rubric score the
    pipeline handles.  A Python `dict` is an insertion-ordered map with
    distinct keys; it is embedded as the ordered association list of an
    object node, and assignment `d[k] = v` / `d.update(m)` is embedded by
    `dictInsert` / `dictUpdate` (replace in place if the key is present,
    append otherwise).
  * The filesystem tree the walker enumerates is embedded as explicit
    data (`JDir`/`RDir`/`JFile`); the enumeration order of
    `Path.iterdir()` and `Path.glob` is the list order.  A file whose
    `content` is `none` stands for a file `json.load` fails to parse.
  * A run that raises is embedded as `Except.error`; the output file is
    the `Except.ok` payload, so an aborted run writes no output.
  * Floating-point arithmetic of the aggregator is embedded as exact
    rational arithmetic (`ℚ`), and `round(x, 2)` as exact
    round-half-to-even at two decimal digits.
-/
import Mathlib

abbrev Str := List Char

/-! ## Parsed JSON documents -/

mutual
/-- A parsed JSON value (`json.load` output). Numeric leaves are modelled
as integers. -/
inductive JVal where
  | vint : Int → JVal
  | vstr : Str → JVal
  | vbool : Bool → JVal
  | vlist : JList → JVal
  | vobj : JObj → JVal
/-- A parsed JSON array. -/
inductive JList where
  | jnil : JList
  | jcons : JVal → JList → JList
/-- A parsed JSON object: an insertion-ordered list of key/value fields. -/
inductive JObj where
  | onil : JObj
  | ocons : Str → JVal → JObj → JObj
end

/-- The entries of a flat Python dict with `Str` keys and JSON values. -/
abbrev Entries := List (Str × JVal)

/-- Python dict assignment `d[k] = v`: replace the value in place if `k`
is already a key, append the pair otherwise. -/
def dictInsert (m : Entries) (k : Str) (v : JVal) : Entries :=
  match m with
  | [] => [(k, v)]
  | (k', v') :: rest => if k' = k then (k', v) :: rest else (k', v') :: dictInsert rest k v

/-- Python `d.update(m)`: assign every pair of `m` in order. -/
def dictUpdate (m : Entries) (upd : Entries) : Entries :=
  upd.foldl (fun acc kv => dictInsert acc kv.1 kv.2) m

/-! ## generate_summaries_csv.py: helpers -/

/-- The literal separator of the root-directory naming pattern. -/
def sepJR : Str := "_judge_results_".toList

/-- The admissible split positions of `re.match(r"(.*)_judge_results_(.*)", name)`:
the first group `(.*)` is a newline-free prefix (`.` does not match a
newline without `re.DOTALL`) after which the literal separator matches. -/
def candPositions (name : Str) : List Nat :=
  (List.range (name.length + 1)).filter
    (fun p => (name.take p).all (fun c => c != '\n') && sepJR.isPrefixOf (name.drop p))

/-- `parse_judge_folder` of generate_summaries_csv.py:
`re.match(r"(.*)_judge_results_(.*)", name)` with groups 1 and 2 returned,
`(None, None)` if the regex does not match.  The first `(.*)` is greedy, so
the split happens at the last admissible separator occurrence; `re.match`
anchors at the start only, so the second group is the longest newline-free
run after the separator. -/
def parse_judge_folder (name : Str) : Option Str × Option Str :=
  match (candPositions name).getLast? with
  | none => (none, none)
  | some p =>
      (some (name.take p), some ((name.drop (p + sepJR.length)).takeWhile (fun c => c != '\n')))

/-- The token removed by `parse_results_folder`. -/
def resTok : Str := "results_".toList

/-- Python `name.replace("results_", "")`: remove every occurrence of the
token, scanning left to right over non-overlapping occurrences. -/
def removeResults : Str → Str
  | 'r' :: 'e' :: 's' :: 'u' :: 'l' :: 't' :: 's' :: '_' :: rest => removeResults rest
  | c :: rest => c :: removeResults rest
  | [] => []

/-- Python `s.split("_")`: split at every underscore, keeping empty pieces. -/
def splitU : Str → List Str
  | [] => [[]]
  | c :: rest =>
      if c = '_' then [] :: splitU rest
      else
        match splitU rest with
        | t :: ts => (c :: t) :: ts
        | [] => [[c]]

/-- Python `"_".join(parts)`. -/
def joinU : List Str → Str
  | [] => []
  | [t] => t
  | t :: ts => t ++ '_' :: joinU ts

/-- `parse_results_folder` of generate_summaries_csv.py:
`parts = name.replace("results_", "").split("_")`; `(None, None)` when
`len(parts) < 2`, otherwise `(parts[0], "_".join(parts[1:]))`. -/
def parse_results_folder (name : Str) : Option Str × Option Str :=
  match splitU (removeResults name) with
  | a :: b :: rest => (some a, some (joinU (b :: rest)))
  | _ => (none, none)

/-- Key joining of `flatten_json`: `f"{parent_key}{sep}{k}" if parent_key
else k`, with the default separator `"."`; the empty parent key is falsy. -/
def joinKey (parent k : Str) : Str :=
  if parent = [] then k else parent ++ '.' :: k

mutual
/-- The loop of `flatten_json(d, parent_key, sep=".")` over the fields of
`d`, threading the accumulated dict `items`. -/
def flattenObj (parent : Str) (items : Entries) : JObj → Entries
  | .onil => items
  | .ocons k v rest => flattenObj parent (flattenVal parent items k v) rest
/-- One iteration of the `flatten_json` loop: a mapping value recurses and
is merged with `items.update(...)`, any other value is assigned as a leaf. -/
def flattenVal (parent : Str) (items : Entries) (k : Str) : JVal → Entries
  | .vobj o => dictUpdate items (flattenObj (joinKey parent k) [] o)
  | v => dictInsert items (joinKey parent k) v
end

/-- `flatten_json(d)` with the default `parent_key=""`, `sep="."`. -/
def flatten_json (d : JObj) : Entries := flattenObj [] [] d

/-! ## generate_summaries_csv.py: corpus walker -/

/-- A judgement file: its file name and its parsed JSON content
(`none` when `json.load` raises). -/
structure JFile where
  name : Str
  content : Option JObj

/-- An entry of a root directory as seen by `judge_dir.iterdir()`:
its name, whether it is a directory, and its `*.json` candidate files. -/
structure RDir where
  name : Str
  isDir : Bool
  files : List JFile

/-- A directory present on the filesystem at a configured root path. -/
structure JDir where
  name : Str
  entries : List RDir

/-- The configured `ROOTS` list of generate_summaries_csv.py. -/
def ROOTS : List Str :=
  ["gemini_judge_results_basic".toList, "gemini_judge_results_full".toList]

/-- The `META_COLS` list of generate_summaries_csv.py. -/
def META_COLS : List Str :=
  ["paper_id".toList, "judge_model".toList, "judge_prompt".toList,
   "generator_model".toList, "summary_style".toList]

/-- The suffix of the kept score fields: `k.endswith(".score")`. -/
def scoreSuffix : Str := ".score".toList

/-- The extension filter of `results_dir.glob("*.json")`. -/
def jsonExt : Str := ".json".toList

/-- `pathlib.PurePath.stem`: the file name without its last suffix;
a dot at index 0 or at the very end does not start a suffix. -/
def stem (name : Str) : Str :=
  let rev := name.reverse
  if rev.takeWhile (fun c => c != '.') = [] then name
  else
    match rev.dropWhile (fun c => c != '.') with
    | [] => name
    | _ :: rest => if rest = [] then name else rest.reverse

/-- The substring removed from the file stem:
`json_file.stem.replace("_judge", "")`. -/
def jSub : Str := "_judge".toList

/-- Python `s.replace("_judge", "")`: remove every occurrence, scanning
left to right over non-overlapping occurrences. -/
def removeJudge : Str → Str
  | '_' :: 'j' :: 'u' :: 'd' :: 'g' :: 'e' :: rest => removeJudge rest
  | c :: rest => c :: removeJudge rest
  | [] => []

/-- The `paper_id` of a row: `json_file.stem.replace("_judge", "")`. -/
def paperIdOf (fname : Str) : Str := removeJudge (stem fname)

/-- The row built for one judgement file: the five metadata fields, then
every flattened field whose key ends in `".score"`, assigned in flattening
order. -/
def buildRow (jm jp gm ss fname : Str) (data : JObj) : Entries :=
  let flat := flatten_json data
  let base : Entries :=
    [("paper_id".toList, .vstr (paperIdOf fname)),
     ("judge_model".toList, .vstr jm),
     ("judge_prompt".toList, .vstr jp),
     ("generator_model".toList, .vstr gm),
     ("summary_style".toList, .vstr ss)]
  (flat.filter (fun kv => scoreSuffix.isSuffixOf kv.1)).foldl
    (fun r kv => dictInsert r kv.1 kv.2) base

/-- The error raised by `json.load` on an unparseable judgement file
(`json.JSONDecodeError` propagates and aborts the whole run). -/
def parseErrMsg (fname : Str) : Str := "Expecting value: ".toList ++ fname

/-- The inner loop over `results_dir.glob("*.json")`: build one row per
parseable file; an unparseable file aborts the run. -/
def walkFiles (jm jp gm ss : Str) : List JFile → Except Str (List Entries)
  | [] => .ok []
  | f :: rest =>
      if jsonExt.isSuffixOf f.name then
        match f.content with
        | none => .error (parseErrMsg f.name)
        | some data =>
            match walkFiles jm jp gm ss rest with
            | .error e => .error e
            | .ok rows => .ok (buildRow jm jp gm ss f.name data :: rows)
      else walkFiles jm jp gm ss rest

/-- The loop over `judge_dir.iterdir()`: skip non-directories, skip a
subdirectory whose name `parse_results_folder` rejects, and walk the
judgement files of the rest.  (`parse_results_folder` always returns both
components or neither, so the wildcard arm matches exactly the
`generator_model is None` check of the source.) -/
def walkSubs (jm jp : Str) : List RDir → Except Str (List Entries)
  | [] => .ok []
  | d :: rest =>
      if d.isDir then
        match parse_results_folder d.name with
        | (some gm, some ss) =>
            match walkFiles jm jp gm ss d.files with
            | .error e => .error e
            | .ok a =>
                match walkSubs jm jp rest with
                | .error e => .error e
                | .ok b => .ok (a ++ b)
        | _ => walkSubs jm jp rest
      else walkSubs jm jp rest

/-- The loop over `ROOTS`: a root path that does not exist on the
filesystem is skipped with a console warning and the run continues; a root
whose name `parse_judge_folder` rejects is skipped as well.  The source
parses `judge_dir.name`, which equals the looked-up root name `r` by
construction of the lookup. -/
def walkRoots (fs : List JDir) : List Str → Except Str (List Entries)
  | [] => .ok []
  | r :: rest =>
      match fs.find? (fun d => d.name == r) with
      | none => walkRoots fs rest
      | some jd =>
          match parse_judge_folder r with
          | (some jm, some jp) =>
              match walkSubs jm jp jd.entries with
              | .error e => .error e
              | .ok a =>
                  match walkRoots fs rest with
                  | .error e => .error e
                  | .ok b => .ok (a ++ b)
          | _ => walkRoots fs rest

/-- The whole walk of generate_summaries_csv.py over a filesystem. -/
def runWalk (fs : List JDir) : Except Str (List Entries) := walkRoots fs ROOTS

/-! ## generate_summaries_csv.py: CSV emission -/

/-- Python string comparison: lexicographic on code points. -/
def strLE : Str → Str → Bool
  | [], _ => true
  | _ :: _, [] => false
  | a :: as, b :: bs => if a < b then true else if a = b then strLE as bs else false

/-- The score keys a row contributes to the global `score_keys` set: the
keys that were kept by the `k.endswith(".score")` filter. -/
def rowScoreKeys (r : Entries) : List Str :=
  (r.map Prod.fst).filter (fun k => scoreSuffix.isSuffixOf k)

/-- The `score_keys` set accumulated during the walk: the union over all
rows of the kept score keys (a Python `set`, here deduplicated). -/
def scoreKeySet (rows : List Entries) : List Str :=
  ((rows.map rowScoreKeys).flatten).dedup

/-- `fieldnames = META_COLS + sorted(score_keys)`. -/
def fieldnamesOf (rows : List Entries) : List Str :=
  META_COLS ++ List.insertionSort (fun a b => strLE a b = true) (scoreKeySet rows)

/-- First-occurrence key lookup in a row dict. -/
def getVal? : Entries → Str → Option JVal
  | [], _ => none
  | (k, v) :: rest, c => if k = c then some v else getVal? rest c

mutual
/-- Python `str(value)` for the cell values the writer serialises. -/
def pyStrV : JVal → Str
  | .vint n => (toString n).toList
  | .vstr s => s
  | .vbool b => if b then "True".toList else "False".toList
  | .vlist l => '[' :: pyStrList l ++ [']']
  | .vobj o => '\x7b' :: pyStrObj o ++ ['\x7d']
/-- Python `repr(value)`: like `str` except that strings are quoted. -/
def pyReprV : JVal → Str
  | .vint n => (toString n).toList
  | .vstr s => '\x27' :: s ++ ['\x27']
  | .vbool b => if b then "True".toList else "False".toList
  | .vlist l => '[' :: pyStrList l ++ [']']
  | .vobj o => '\x7b' :: pyStrObj o ++ ['\x7d']
/-- Python `repr` of the elements of a list value, comma-joined. -/
def pyStrList : JList → Str
  | .jnil => []
  | .jcons v .jnil => pyReprV v
  | .jcons v rest => pyReprV v ++ ',' :: ' ' :: pyStrList rest
/-- Python `repr` of the fields of a dict value, comma-joined. -/
def pyStrObj : JObj → Str
  | .onil => []
  | .ocons k v .onil => '\x27' :: k ++ '\x27' :: ':' :: ' ' :: pyReprV v
  | .ocons k v rest => '\x27' :: k ++ '\x27' :: ':' :: ' ' :: pyReprV v ++ ',' :: ' ' :: pyStrObj rest
end

/-- `csv` QUOTE_MINIMAL: a field is quoted when it contains the delimiter,
the quote character, or a character of the line terminator. -/
def needsQuote (s : Str) : Bool :=
  s.any (fun c => c == ',' || c == '"' || c == '\r' || c == '\n')

/-- `csv` field escaping: wrap in quotes and double every inner quote. -/
def escapeField (s : Str) : Str :=
  if needsQuote s then
    '"' :: (s.map (fun c => if c = '"' then ['"', '"'] else [c])).flatten ++ ['"']
  else s

/-- Comma-join of the serialised fields of one CSV record. -/
def joinComma : List Str → Str
  | [] => []
  | [t] => t
  | t :: ts => t ++ ',' :: joinComma ts

/-- One serialised CSV record: the fields in `fieldnames` order, a key the
row lacks rendering as the empty field (`DictWriter` restval). -/
def rowLine (fns : List Str) (r : Entries) : Str :=
  joinComma (fns.map (fun c =>
    escapeField (match getVal? r c with
                 | some v => pyStrV v
                 | none => [])))

/-- The `\r\n` record terminator of the csv writer. -/
def crlf : Str := ['\r', '\n']

/-- The emitted CSV file: the header record, then one record per row, in
row order, each followed by the record terminator. -/
def writeCsv (fns : List Str) (rows : List Entries) : Str :=
  (((joinComma (fns.map escapeField)) :: rows.map (rowLine fns)).map
    (fun l => l ++ crlf)).flatten

/-- The error message of the empty-corpus guard. -/
def noRowsMsg : Str := "No rows found — check folder structure".toList

/-- The whole of generate_summaries_csv.py: walk, fail when no rows were
produced, otherwise emit the CSV once.  The `Except.ok` payload is the
content written to `all_judgements_meta.csv`; on `Except.error` the script
aborts before the write. -/
def generateCsv (fs : List JDir) : Except Str Str :=
  match runWalk fs with
  | .error e => .error e
  | .ok [] => .error noRowsMsg
  | .ok rows => .ok (writeCsv (fieldnamesOf rows) rows)

/-! ## calculate_average_scores.py: tabular aggregator

The script reads `all_judgements_meta.csv` into a pandas frame, groups by
four metadata columns, takes the mean of seven hardcoded score columns
(`mean()` skips missing values), rounds to two decimals, sorts by the
grouping tuple and writes the result.  The frame is embedded as a header
plus one association list of cells per row; a missing value (empty CSV
cell, pandas `NaN`) is the cell `Cell.cna`. -/

/-- One cell of the aggregator's data frame: a string, a number, or a
missing value (`NaN`). -/
inductive Cell where
  | cs : Str → Cell
  | cq : ℚ → Cell
  | cna : Cell
deriving DecidableEq

/-- The aggregator's data frame: column names and rows of cells. -/
structure DFrame where
  cols : List Str
  rows : List (List (Str × Cell))
deriving DecidableEq

/-- The `group_columns` list of calculate_average_scores.py. -/
def group_columns : List Str :=
  ["judge_model".toList, "judge_prompt".toList,
   "generator_model".toList, "summary_style".toList]

/-- The hardcoded `score_columns` list of calculate_average_scores.py. -/
def score_columns : List Str :=
  ["completeness_and_relevance.score".toList,
   "factual_accuracy.score".toList,
   "hallucination.score".toList,
   "prompt_following.score".toList,
   "research_question.score".toList,
   "terminology_explanation_and_coherence.score".toList,
   "total_score".toList]

/-- Cell of a row at a column (frames are rectangular, so the `cna`
default is never exercised on well-formed input). -/
def getCellD : List (Str × Cell) → Str → Cell
  | [], _ => .cna
  | (k, v) :: rest, c => if k = c then v else getCellD rest c

/-- The grouping key of a row: its cells at the four group columns. -/
def rowKey (r : List (Str × Cell)) : List Cell :=
  group_columns.map (getCellD r)

/-- Total order used to sort grouping keys (`groupby(...)` sorts its keys
and `sort_values` re-sorts by the same tuple): pandas compares the string
cells of the key tuples lexicographically and sorts missing (`NaN`) keys
last — though under the default `dropna=True` a missing key is never
emitted at all.  (Group keys are homogeneous strings in this pipeline;
the numeric-versus-string arm is an arbitrary total-order completion.) -/
def cellLE : Cell → Cell → Bool
  | _, .cna => true
  | .cna, _ => false
  | .cq _, .cs _ => true
  | .cs _, .cq _ => false
  | .cq x, .cq y => decide (x ≤ y)
  | .cs x, .cs y => strLE x y

/-- Lexicographic order on grouping keys. -/
def keyLE : List Cell → List Cell → Bool
  | [], _ => true
  | _ :: _, [] => false
  | a :: as, b :: bs => if a = b then keyLE as bs else cellLE a b

/-- Whether a cell is the missing value `NaN`. -/
def cellIsNA : Cell → Bool
  | .cna => true
  | _ => false

/-- Whether a cell holds a string. -/
def cellIsStr : Cell → Bool
  | .cs _ => true
  | _ => false

/-- Whether a grouping key has a missing component: `groupby` with its
default `dropna=True` drops such rows entirely, so they belong to no
group and produce no output row. -/
def keyHasNA (k : List Cell) : Bool := k.any cellIsNA

/-- The numeric content of a cell; a missing value has none. -/
def asQ? : Cell → Option ℚ
  | .cq q => some q
  | _ => none

/-- The rows of a frame belonging to one grouping key. -/
def groupRows (df : DFrame) (k : List Cell) : List (List (Str × Cell)) :=
  df.rows.filter (fun r => rowKey r = k)

/-- The values of column `c` that are present among the rows of group `k`:
`mean()` skips missing values instead of counting them as zero.  In the
successful branch of `average_scores` the selected columns hold only
numeric or missing cells (see the object-dtype guard there), so the
numeric projection is exactly `skipna`. -/
def presentVals (df : DFrame) (k : List Cell) (c : Str) : List ℚ :=
  (groupRows df k).filterMap (fun r => asQ? (getCellD r c))

/-- Round half to even to an integer (the rounding of IEEE floats and of
`round`), on exact rationals. -/
def roundHE (q : ℚ) : ℤ :=
  if q - ⌊q⌋ < 1/2 then ⌊q⌋
  else if (1 : ℚ)/2 < q - ⌊q⌋ then ⌊q⌋ + 1
  else if ⌊q⌋ % 2 = 0 then ⌊q⌋ else ⌊q⌋ + 1

/-- `round(x, 2)` of the script, on exact rationals. -/
def round2 (q : ℚ) : ℚ := (roundHE (q * 100) : ℚ) / 100

/-- The mean of a list of values; the mean of no values is `NaN`. -/
def meanQ (vals : List ℚ) : Cell :=
  match vals with
  | [] => .cna
  | _ => .cq (vals.sum / vals.length)

/-- `round(x, 2)` applied to a mean cell; `NaN` stays `NaN`. -/
def roundCell : Cell → Cell
  | .cq q => .cq (round2 q)
  | c => c

/-- The aggregated cell of group `k` at score column `c`. -/
def aggCell (df : DFrame) (k : List Cell) (c : Str) : Cell :=
  roundCell (meanQ (presentVals df k c))

/-- The sorted list of distinct grouping keys of a frame: `groupby` with
its default `dropna=True` assembles groups only from the rows whose key
has no missing component, and sorts the keys. -/
def sortedKeys (df : DFrame) : List (List Cell) :=
  List.insertionSort (fun a b => keyLE a b = true)
    (((df.rows.map rowKey).filter (fun k => !keyHasNA k)).dedup)

/-- The whole of calculate_average_scores.py after loading the frame:
`df.groupby(group_columns)[score_columns].mean()` raises a `KeyError` when
a selected column is absent from the frame, and a `TypeError` when a
selected score column holds a string cell (the column is then object
dtype and `mean` refuses to aggregate it); otherwise rows with a missing
group-key cell are dropped (`dropna=True`) and there is one output row
per remaining distinct grouping key, sorted by the key, holding the group
columns and the rounded mean of every hardcoded score column — and no
other column. -/
def average_scores (df : DFrame) : Except Str DFrame :=
  if (group_columns ++ score_columns).all (fun c => df.cols.contains c) then
    if score_columns.any (fun c => df.rows.any (fun r => cellIsStr (getCellD r c))) then
      .error "TypeError: could not aggregate non-numeric column".toList
    else
      .ok { cols := group_columns ++ score_columns,
            rows := (sortedKeys df).map (fun k =>
              List.zip group_columns k ++ score_columns.map (fun c => (c, aggCell df k c))) }
  else .error "KeyError: columns not in index".toList

/-! ## Order lemmas for the string comparison -/

lemma strLE_cons_iff (x y : Char) (as bs : Str) :
    strLE (x :: as) (y :: bs) = true ↔ (x < y ∨ (x = y ∧ strLE as bs = true)) := by
  simp only [strLE]
  split_ifs with h1 h2
  · simp [h1]
  · simp [h1, h2]
  · simp [h1, h2]

lemma strLE_total (a : Str) : ∀ b, strLE a b = true ∨ strLE b a = true := by
  induction a with
  | nil => intro b; left; rfl
  | cons x as ih =>
      intro b
      cases b with
      | nil => right; rfl
      | cons y bs =>
          rcases lt_trichotomy x y with h | h | h
          · left; rw [strLE_cons_iff]; exact Or.inl h
          · rcases ih bs with h2 | h2
            · left; rw [strLE_cons_iff]; exact Or.inr ⟨h, h2⟩
            · right; rw [strLE_cons_iff]; exact Or.inr ⟨h.symm, h2⟩
          · right; rw [strLE_cons_iff]; exact Or.inl h

lemma strLE_trans (a : Str) : ∀ b c, strLE a b = true → strLE b c = true → strLE a c = true := by
  induction a with
  | nil => intro b c _ _; rfl
  | cons x as ih =>
      intro b c hab hbc
      cases b with
      | nil => simp [strLE] at hab
      | cons y bs =>
          cases c with
          | nil => simp [strLE] at hbc
          | cons z cs =>
              rw [strLE_cons_iff] at hab hbc ⊢
              rcases hab with h1 | ⟨h1, h1s⟩
              · rcases hbc with h2 | ⟨h2, _⟩
                · exact Or.inl (h1.trans h2)
                · exact Or.inl (h2 ▸ h1)
              · rcases hbc with h2 | ⟨h2, h2s⟩
                · exact Or.inl (h1 ▸ h2)
                · exact Or.inr ⟨h1.trans h2, ih bs cs h1s h2s⟩

lemma strLE_antisymm (a : Str) : ∀ b, strLE a b = true → strLE b a = true → a = b := by
  induction a with
  | nil => intro b _ hba; cases b with
      | nil => rfl
      | cons y bs => simp [strLE] at hba
  | cons x as ih =>
      intro b hab hba
      cases b with
      | nil => simp [strLE] at hab
      | cons y bs =>
          rw [strLE_cons_iff] at hab hba
          rcases hab with h1 | ⟨h1, h1s⟩
          · rcases hba with h2 | ⟨h2, _⟩
            · exact absurd h2 (lt_asymm h1)
            · exact absurd (h2 ▸ h1) (lt_irrefl y)
          · rcases hba with h2 | ⟨_, h2s⟩
            · exact absurd (h1 ▸ h2) (lt_irrefl y)
            · rw [h1, ih bs h1s h2s]

instance : IsTotal Str (fun a b => strLE a b = true) := ⟨strLE_total⟩

instance : IsTrans Str (fun a b => strLE a b = true) := ⟨strLE_trans⟩

instance : IsAntisymm Str (fun a b => strLE a b = true) := ⟨strLE_antisymm⟩

/-! ## Lemmas on replace-all removal -/

lemma removeJudge_cons (c : Char) (l : Str) (h : ¬ jSub.isPrefixOf (c :: l)) :
    removeJudge (c :: l) = c :: removeJudge l := by
  rw [removeJudge.eq_def]
  split
  · rename_i rest heq
    exfalso
    apply h
    cases heq
    simp [jSub, List.isPrefixOf]
  · rename_i c' rest hno heq
    cases heq
    rfl
  · rename_i heq
    exact absurd heq (by simp)

lemma removeJudge_intact (l : Str) (h : ∀ p < l.length, ¬ jSub.isPrefixOf (l.drop p)) :
    removeJudge l = l := by
  induction l with
  | nil => rfl
  | cons c rest ih =>
      have h0 : ¬ jSub.isPrefixOf (c :: rest) := by simpa using h 0 (by simp)
      rw [removeJudge_cons c rest h0]
      have := ih (fun p hp => by simpa using h (p + 1) (by simpa using hp))
      rw [this]

lemma removeJudge_strip (A : Str)
    (h : ∀ p < A.length, ¬ jSub.isPrefixOf ((A ++ jSub).drop p)) :
    removeJudge (A ++ jSub) = A := by
  induction A with
  | nil => rfl
  | cons c rest ih =>
      have h0 : ¬ jSub.isPrefixOf (c :: (rest ++ jSub)) := by
        simpa using h 0 (by simp)
      rw [List.cons_append, removeJudge_cons _ _ h0]
      have := ih (fun p hp => by simpa using h (p + 1) (by simpa using hp))
      rw [this]

lemma removeResults_cons (c : Char) (l : Str) (h : ¬ resTok.isPrefixOf (c :: l)) :
    removeResults (c :: l) = c :: removeResults l := by
  rw [removeResults.eq_def]
  split
  · rename_i rest heq
    exfalso
    apply h
    cases heq
    simp [resTok, List.isPrefixOf]
  · rename_i c' rest hno heq
    cases heq
    rfl
  · rename_i heq
    exact absurd heq (by simp)

lemma removeResults_intact (l : Str) (h : ∀ p < l.length, ¬ resTok.isPrefixOf (l.drop p)) :
    removeResults l = l := by
  induction l with
  | nil => rfl
  | cons c rest ih =>
      have h0 : ¬ resTok.isPrefixOf (c :: rest) := by simpa using h 0 (by simp)
      rw [removeResults_cons c rest h0]
      have := ih (fun p hp => by simpa using h (p + 1) (by simpa using hp))
      rw [this]

/-! ## Lemmas on underscore split and join -/

lemma splitU_ne_nil (l : Str) : splitU l ≠ [] := by
  cases l with
  | nil => simp [splitU]
  | cons c rest =>
      simp only [splitU]
      split_ifs
      · simp
      · split <;> simp

lemma splitU_sep (G S : Str) (hG : '_' ∉ G) : splitU (G ++ '_' :: S) = G :: splitU S := by
  induction G with
  | nil => simp [splitU]
  | cons c rest ih =>
      have hc : ¬ (c = '_') := fun h => hG (h ▸ List.mem_cons_self c rest)
      have hrest : '_' ∉ rest := fun h => hG (List.mem_cons_of_mem c h)
      rw [List.cons_append]
      simp only [splitU, if_neg hc]
      rw [ih hrest]

lemma joinU_cons_cons (t u : Str) (ts : List Str) :
    joinU (t :: u :: ts) = t ++ '_' :: joinU (u :: ts) := rfl

lemma joinU_splitU (l : Str) : joinU (splitU l) = l := by
  induction l with
  | nil => rfl
  | cons c rest ih =>
      by_cases hc : c = '_'
      · subst hc
        show joinU ([] :: splitU rest) = '_' :: rest
        obtain ⟨t, ts, hts⟩ : ∃ t ts, splitU rest = t :: ts := by
          cases h : splitU rest with
          | nil => exact absurd h (splitU_ne_nil rest)
          | cons t ts => exact ⟨t, ts, rfl⟩
        rw [hts, joinU_cons_cons, ← hts, ih]
        rfl
      · obtain ⟨t, ts, hts⟩ : ∃ t ts, splitU rest = t :: ts := by
          cases h : splitU rest with
          | nil => exact absurd h (splitU_ne_nil rest)
          | cons t ts => exact ⟨t, ts, rfl⟩
        have hstep : splitU (c :: rest) = (c :: t) :: ts := by
          simp only [splitU, if_neg hc]
          rw [hts]
        rw [hstep]
        cases ts with
        | nil =>
            have : joinU [t] = rest := by rw [← hts, ih]
            show c :: t = c :: rest
            rw [show t = rest from this]
        | cons u us =>
            rw [joinU_cons_cons]
            have : joinU (t :: u :: us) = rest := by rw [← hts, ih]
            rw [joinU_cons_cons] at this
            show c :: (t ++ '_' :: joinU (u :: us)) = c :: rest
            rw [this]

/-! ## Lemmas on the root-name regex model -/

lemma parse_judge_folder_split (A B : Str)
    (hA : ∀ c ∈ A, c ≠ '\n') (hB : ∀ c ∈ B, c ≠ '\n')
    (huniq : ∀ p < (A ++ sepJR ++ B).length + 1,
      sepJR.isPrefixOf ((A ++ sepJR ++ B).drop p) → p = A.length) :
    parse_judge_folder (A ++ sepJR ++ B) = (some A, some B) := by
  have ht : (A ++ sepJR ++ B).take A.length = A := by
    rw [List.append_assoc, List.take_left]
  have hd : (A ++ sepJR ++ B).drop (A.length + sepJR.length) = B := by
    rw [show A.length + sepJR.length = (A ++ sepJR).length from (List.length_append _ _).symm,
      List.drop_left]
  have hmem : A.length ∈ candPositions (A ++ sepJR ++ B) := by
    unfold candPositions
    rw [List.mem_filter, List.mem_range]
    refine ⟨?_, ?_⟩
    · rw [List.length_append, List.length_append]
      omega
    · rw [Bool.and_eq_true]
      refine ⟨?_, ?_⟩
      · rw [ht, List.all_eq_true]
        intro c hc
        simpa using hA c hc
      · rw [List.append_assoc, List.drop_left]
        rw [List.isPrefixOf_iff_prefix]
        exact List.prefix_append sepJR B
  have hne : candPositions (A ++ sepJR ++ B) ≠ [] := List.ne_nil_of_mem hmem
  have hall : ∀ p ∈ candPositions (A ++ sepJR ++ B), p = A.length := by
    intro p hp
    unfold candPositions at hp
    rw [List.mem_filter, List.mem_range] at hp
    obtain ⟨hlt, hpred⟩ := hp
    rw [Bool.and_eq_true] at hpred
    exact huniq p hlt hpred.2
  have hlast : (candPositions (A ++ sepJR ++ B)).getLast? = some A.length := by
    rw [List.getLast?_eq_getLast _ hne]
    exact congrArg some (hall _ (List.getLast_mem hne))
  unfold parse_judge_folder
  rw [hlast]
  show (some ((A ++ sepJR ++ B).take A.length),
      some (((A ++ sepJR ++ B).drop (A.length + sepJR.length)).takeWhile (fun c => c != '\n'))) =
    (some A, some B)
  rw [ht, hd]
  have : B.takeWhile (fun c => c != '\n') = B := by
    rw [List.takeWhile_eq_self_iff]
    intro c hc
    simpa using hB c hc
  rw [this]

lemma parse_judge_folder_nomatch (name : Str)
    (h : ∀ p < name.length, ¬ sepJR.isPrefixOf (name.drop p)) :
    parse_judge_folder name = (none, none) := by
  have hempty : candPositions name = [] := by
    unfold candPositions
    rw [List.filter_eq_nil_iff]
    intro p hp
    rw [List.mem_range] at hp
    intro hpred
    rw [Bool.and_eq_true] at hpred
    rcases Nat.lt_or_ge p name.length with hlt | hge
    · exact h p hlt hpred.2
    · have hdrop : name.drop p = [] := List.drop_eq_nil_of_le hge
      rw [hdrop] at hpred
      exact absurd hpred.2 (by simp [sepJR, List.isPrefixOf])
  unfold parse_judge_folder
  rw [hempty]
  rfl

/-! ## Lemma on the file stem -/

lemma stem_json (B : Str) (hB : B ≠ []) : stem (B ++ jsonExt) = B := by
  have hrev : (B ++ jsonExt).reverse = 'n' :: 'o' :: 's' :: 'j' :: '.' :: B.reverse := by
    rw [List.reverse_append]
    rfl
  have htake : ((B ++ jsonExt).reverse).takeWhile (fun c => c != '.') =
      ['n', 'o', 's', 'j'] := by
    rw [hrev]
    rw [List.takeWhile_cons_of_pos (by decide), List.takeWhile_cons_of_pos (by decide),
      List.takeWhile_cons_of_pos (by decide), List.takeWhile_cons_of_pos (by decide),
      List.takeWhile_cons_of_neg (by decide)]
  have hdrop : ((B ++ jsonExt).reverse).dropWhile (fun c => c != '.') = '.' :: B.reverse := by
    rw [hrev]
    rw [List.dropWhile_cons_of_pos (by decide), List.dropWhile_cons_of_pos (by decide),
      List.dropWhile_cons_of_pos (by decide), List.dropWhile_cons_of_pos (by decide),
      List.dropWhile_cons_of_neg (by decide)]
  simp only [stem]
  rw [htake, hdrop]
  simp [hB]

/-! ## Lemmas on the schema flattener -/

lemma dictInsert_fresh (m : Entries) (k : Str) (v : JVal) (h : k ∉ m.map Prod.fst) :
    dictInsert m k v = m ++ [(k, v)] := by
  induction m with
  | nil => rfl
  | cons kv rest ih =>
      obtain ⟨k', v'⟩ := kv
      rw [List.map_cons, List.mem_cons] at h
      push_neg at h
      have hne : ¬ (k' = k) := fun he => h.1 he.symm
      simp only [dictInsert, if_neg hne, List.cons_append]
      rw [ih h.2]

lemma dictUpdate_fresh : ∀ (upd m : Entries), (upd.map Prod.fst).Nodup →
    (∀ k ∈ upd.map Prod.fst, k ∉ m.map Prod.fst) → dictUpdate m upd = m ++ upd := by
  intro upd
  induction upd with
  | nil => intro m _ _; simp [dictUpdate]
  | cons kv rest ih =>
      intro m hnd hdisj
      obtain ⟨k, v⟩ := kv
      have h1 : k ∉ m.map Prod.fst :=
        hdisj k (by rw [List.map_cons]; exact List.mem_cons_self _ _)
      have step : dictUpdate m ((k, v) :: rest) = dictUpdate (m ++ [(k, v)]) rest := by
        simp only [dictUpdate, List.foldl_cons]
        rw [dictInsert_fresh m k v h1]
      rw [List.map_cons] at hnd
      have hnd' : (rest.map Prod.fst).Nodup := hnd.of_cons
      have hknotin : (k, v).1 ∉ rest.map Prod.fst := (List.nodup_cons.mp hnd).1
      have hdisj' : ∀ k' ∈ rest.map Prod.fst, k' ∉ (m ++ [(k, v)]).map Prod.fst := by
        intro k' hk'
        rw [List.map_append, List.mem_append]
        rintro (hm | hs)
        · exact hdisj k' (by rw [List.map_cons]; exact List.mem_cons_of_mem _ hk') hm
        · have hkk : k' = k := by simpa using hs
          exact hknotin (hkk ▸ hk')
      rw [step, ih (m ++ [(k, v)]) hnd' hdisj', List.append_assoc]
      rfl

mutual
/-- Reference semantics of the flattener on an object node: the
root-to-leaf key paths, dot-joined, each paired with its untouched leaf
value, in document order. -/
def leafObj (parent : Str) : JObj → Entries
  | .onil => []
  | .ocons k v rest => leafVal parent k v ++ leafObj parent rest
/-- Reference semantics of the flattener on one field. -/
def leafVal (parent : Str) (k : Str) : JVal → Entries
  | .vobj o => leafObj (joinKey parent k) o
  | v => [(joinKey parent k, v)]
end

mutual
theorem flattenObj_spec (parent : Str) (items : Entries) (o : JObj)
    (h : (items.map Prod.fst ++ (leafObj parent o).map Prod.fst).Nodup) :
    flattenObj parent items o = items ++ leafObj parent o := by
  match o with
  | .onil => simp [flattenObj, leafObj]
  | .ocons k v rest =>
      rw [leafObj] at h ⊢
      rw [List.map_append] at h
      have hv : flattenVal parent items k v = items ++ leafVal parent k v :=
        flattenVal_spec parent items k v
          (((List.append_sublist_append_left _).mpr
            (List.sublist_append_left _ _)).nodup h)
      rw [flattenObj, hv,
        flattenObj_spec parent (items ++ leafVal parent k v) rest
          (by rw [List.map_append, List.append_assoc]; exact h),
        List.append_assoc]
theorem flattenVal_spec (parent : Str) (items : Entries) (k : Str) (v : JVal)
    (h : (items.map Prod.fst ++ (leafVal parent k v).map Prod.fst).Nodup) :
    flattenVal parent items k v = items ++ leafVal parent k v := by
  match v with
  | .vobj o =>
      rw [leafVal] at h ⊢
      obtain ⟨hK, hL, hdisj⟩ := List.nodup_append.mp h
      have hrec : flattenObj (joinKey parent k) [] o =
          [] ++ leafObj (joinKey parent k) o :=
        flattenObj_spec (joinKey parent k) [] o (by simpa using hL)
      rw [flattenVal, hrec, List.nil_append]
      exact dictUpdate_fresh _ items hL
        (fun k' hk' hm => (List.disjoint_right.mp hdisj) hk' hm)
  | .vint n =>
      exact dictInsert_fresh items _ _
        (fun hm => (List.disjoint_right.mp (List.nodup_append.mp h).2.2) (by simp [leafVal]) hm)
  | .vstr s =>
      exact dictInsert_fresh items _ _
        (fun hm => (List.disjoint_right.mp (List.nodup_append.mp h).2.2) (by simp [leafVal]) hm)
  | .vbool b =>
      exact dictInsert_fresh items _ _
        (fun hm => (List.disjoint_right.mp (List.nodup_append.mp h).2.2) (by simp [leafVal]) hm)
  | .vlist l =>
      exact dictInsert_fresh items _ _
        (fun hm => (List.disjoint_right.mp (List.nodup_append.mp h).2.2) (by simp [leafVal]) hm)
end

/-- Whether a value is a non-mapping leaf. -/
def isLeafV : JVal → Bool
  | .vobj _ => false
  | _ => true

/-- Whether an object has no nested mapping values. -/
def noNested : JObj → Bool
  | .onil => true
  | .ocons _ v rest => isLeafV v && noNested rest

/-- The fields of an object as a flat association list. -/
def objEntries : JObj → Entries
  | .onil => []
  | .ocons k v rest => (k, v) :: objEntries rest

lemma joinKey_nil (k : Str) : joinKey [] k = k := rfl

lemma leafObj_of_noNested (o : JObj) (h : noNested o = true) :
    leafObj [] o = objEntries o := by
  match o with
  | .onil => rfl
  | .ocons k v rest =>
      simp only [noNested, Bool.and_eq_true] at h
      rw [leafObj, objEntries, leafObj_of_noNested rest h.2]
      cases v with
      | vobj o' => exact absurd h.1 (by simp [isLeafV])
      | vint n => rfl
      | vstr s => rfl
      | vbool b => rfl
      | vlist l => rfl

/-! ## Characterisation of a successful walk -/

/-- The row one directory entry of the file enumeration contributes, if
any: `.json` files with parseable content only. -/
def fileRow? (jm jp gm ss : Str) (f : JFile) : Option Entries :=
  if jsonExt.isSuffixOf f.name then f.content.map (buildRow jm jp gm ss f.name) else none

lemma walkFiles_ok (jm jp gm ss : Str) : ∀ (l : List JFile) (rows : List Entries),
    walkFiles jm jp gm ss l = .ok rows → rows = l.filterMap (fileRow? jm jp gm ss) := by
  intro l
  induction l with
  | nil =>
      intro rows h
      cases h
      rfl
  | cons f rest ih =>
      intro rows h
      simp only [walkFiles] at h
      by_cases hj : jsonExt.isSuffixOf f.name
      · rw [if_pos hj] at h
        cases hc : f.content with
        | none => rw [hc] at h; cases h
        | some data =>
            rw [hc] at h
            cases hw : walkFiles jm jp gm ss rest with
            | error e => rw [hw] at h; cases h
            | ok rows' =>
                rw [hw] at h
                cases h
                rw [List.filterMap_cons]
                simp only [fileRow?, if_pos hj, hc]
                rw [ih rows' hw]
                rfl
      · rw [if_neg hj] at h
        rw [List.filterMap_cons]
        simp only [fileRow?, if_neg hj]
        exact ih rows h

/-- The rows one entry of `judge_dir.iterdir()` contributes. -/
def dirRows (jm jp : Str) (d : RDir) : List Entries :=
  if d.isDir then
    match parse_results_folder d.name with
    | (some gm, some ss) => d.files.filterMap (fileRow? jm jp gm ss)
    | _ => []
  else []

lemma walkSubs_ok (jm jp : Str) : ∀ (ds : List RDir) (rows : List Entries),
    walkSubs jm jp ds = .ok rows → rows = (ds.map (dirRows jm jp)).flatten := by
  intro ds
  induction ds with
  | nil =>
      intro rows h
      cases h
      rfl
  | cons d rest ih =>
      intro rows h
      simp only [walkSubs] at h
      rw [List.map_cons, List.flatten_cons]
      by_cases hd : d.isDir
      · rw [if_pos hd] at h
        rcases hp : parse_results_folder d.name with ⟨o1, o2⟩
        rw [hp] at h
        match o1, o2 with
        | some gm, some ss =>
            replace h : (match walkFiles jm jp gm ss d.files with
              | .error e => (.error e : Except Str (List Entries))
              | .ok a =>
                  match walkSubs jm jp rest with
                  | .error e => .error e
                  | .ok b => .ok (a ++ b)) = .ok rows := h
            cases hw : walkFiles jm jp gm ss d.files with
            | error e => rw [hw] at h; cases h
            | ok a =>
                rw [hw] at h
                cases hs : walkSubs jm jp rest with
                | error e => rw [hs] at h; cases h
                | ok b =>
                    rw [hs] at h
                    cases h
                    rw [ih b hs]
                    simp only [dirRows, if_pos hd, hp]
                    rw [walkFiles_ok jm jp gm ss d.files a hw]
        | some gm, none =>
            replace h : walkSubs jm jp rest = .ok rows := h
            simp only [dirRows, if_pos hd, hp, List.nil_append]
            exact ih rows h
        | none, some ss =>
            replace h : walkSubs jm jp rest = .ok rows := h
            simp only [dirRows, if_pos hd, hp, List.nil_append]
            exact ih rows h
        | none, none =>
            replace h : walkSubs jm jp rest = .ok rows := h
            simp only [dirRows, if_pos hd, hp, List.nil_append]
            exact ih rows h
      · rw [if_neg hd] at h
        simp only [dirRows, if_neg hd, List.nil_append]
        exact ih rows h

/-- The rows one configured root contributes. -/
def rootRows (fs : List JDir) (r : Str) : List Entries :=
  match fs.find? (fun d => d.name == r) with
  | none => []
  | some jd =>
      match parse_judge_folder r with
      | (some jm, some jp) => (jd.entries.map (dirRows jm jp)).flatten
      | _ => []

lemma walkRoots_ok (fs : List JDir) : ∀ (names : List Str) (rows : List Entries),
    walkRoots fs names = .ok rows → rows = (names.map (rootRows fs)).flatten := by
  intro names
  induction names with
  | nil =>
      intro rows h
      cases h
      rfl
  | cons r rest ih =>
      intro rows h
      simp only [walkRoots] at h
      rw [List.map_cons, List.flatten_cons]
      cases hf : fs.find? (fun d => d.name == r) with
      | none =>
          rw [hf] at h
          simp only [rootRows, hf, List.nil_append]
          exact ih rows h
      | some jd =>
          rw [hf] at h
          rcases hp : parse_judge_folder r with ⟨o1, o2⟩
          rw [hp] at h
          match o1, o2 with
          | some jm, some jp =>
              replace h : (match walkSubs jm jp jd.entries with
                | .error e => (.error e : Except Str (List Entries))
                | .ok a =>
                    match walkRoots fs rest with
                    | .error e => .error e
                    | .ok b => .ok (a ++ b)) = .ok rows := h
              cases hw : walkSubs jm jp jd.entries with
              | error e => rw [hw] at h; cases h
              | ok a =>
                  rw [hw] at h
                  cases hs : walkRoots fs rest with
                  | error e => rw [hs] at h; cases h
                  | ok b =>
                      rw [hs] at h
                      cases h
                      rw [ih b hs]
                      simp only [rootRows, hf, hp]
                      rw [walkSubs_ok jm jp jd.entries a hw]
          | some jm, none =>
              replace h : walkRoots fs rest = .ok rows := h
              simp only [rootRows, hf, hp, List.nil_append]
              exact ih rows h
          | none, some jp =>
              replace h : walkRoots fs rest = .ok rows := h
              simp only [rootRows, hf, hp, List.nil_append]
              exact ih rows h
          | none, none =>
              replace h : walkRoots fs rest = .ok rows := h
              simp only [rootRows, hf, hp, List.nil_append]
              exact ih rows h

/-! ## Enumeration-order equivalence of corpora -/

/-- Two results directories with identical contents, the judgement files
possibly enumerated in a different order. -/
def RDirEquiv (d d' : RDir) : Prop :=
  d.name = d'.name ∧ d.isDir = d'.isDir ∧ d.files.Perm d'.files

/-- `l'` lists the same elements as `l` up to the relation `R`, in any
order. -/
def PermUpTo (R : RDir → RDir → Prop) (l l' : List RDir) : Prop :=
  ∃ mid, l.Perm mid ∧ List.Forall₂ R mid l'

/-- Two root directories with identical contents up to enumeration order
of the subdirectories and of the files within them. -/
def JDirEquiv (j j' : JDir) : Prop :=
  j.name = j'.name ∧ PermUpTo RDirEquiv j.entries j'.entries

/-- Two filesystems with identical directory contents up to enumeration
order. -/
def CorpusEquiv (fs fs' : List JDir) : Prop := List.Forall₂ JDirEquiv fs fs'

lemma flatten_perm_of_forall2 {l l' : List (List Entries)}
    (h : List.Forall₂ (fun a b => a.Perm b) l l') : l.flatten.Perm l'.flatten := by
  induction h with
  | nil => exact List.Perm.refl []
  | cons hab htail ih =>
      rw [List.flatten_cons, List.flatten_cons]
      exact hab.append ih

lemma dirRows_perm (jm jp : Str) (d d' : RDir) (h : RDirEquiv d d') :
    (dirRows jm jp d).Perm (dirRows jm jp d') := by
  obtain ⟨hn, hd, hf⟩ := h
  unfold dirRows
  rw [← hn, ← hd]
  by_cases hdir : d.isDir
  · rw [if_pos hdir, if_pos hdir]
    rcases hp : parse_results_folder d.name with ⟨o1, o2⟩
    match o1, o2 with
    | some gm, some ss => exact hf.filterMap _
    | some gm, none => exact List.Perm.refl []
    | none, some ss => exact List.Perm.refl []
    | none, none => exact List.Perm.refl []
  · rw [if_neg hdir, if_neg hdir]

lemma forall2_map_dirRows (jm jp : Str) : ∀ {l l' : List RDir}, List.Forall₂ RDirEquiv l l' →
    List.Forall₂ (fun a b => a.Perm b) (l.map (dirRows jm jp)) (l'.map (dirRows jm jp)) := by
  intro l l' hf2
  induction hf2 with
  | nil => exact .nil
  | cons hab htail ih => exact .cons (dirRows_perm jm jp _ _ hab) ih

lemma entriesRows_perm (jm jp : Str) {es es' : List RDir} (h : PermUpTo RDirEquiv es es') :
    ((es.map (dirRows jm jp)).flatten).Perm ((es'.map (dirRows jm jp)).flatten) := by
  obtain ⟨mid, hperm, hf2⟩ := h
  have h1 : ((es.map (dirRows jm jp)).flatten).Perm ((mid.map (dirRows jm jp)).flatten) :=
    (hperm.map (dirRows jm jp)).flatten
  exact h1.trans (flatten_perm_of_forall2 (forall2_map_dirRows jm jp hf2))

lemma find?_equiv {fs fs' : List JDir} (h : CorpusEquiv fs fs') (r : Str) :
    (fs.find? (fun d => d.name == r) = none ∧ fs'.find? (fun d => d.name == r) = none) ∨
    (∃ jd jd', fs.find? (fun d => d.name == r) = some jd ∧
      fs'.find? (fun d => d.name == r) = some jd' ∧ JDirEquiv jd jd') := by
  induction h with
  | nil => exact Or.inl ⟨rfl, rfl⟩
  | cons hj htail ih =>
      rename_i a b l1 l2
      by_cases hname : a.name == r
      · have ha : (fun d : JDir => d.name == r) a = true := hname
        have hb : (fun d : JDir => d.name == r) b = true := by
          show (b.name == r) = true
          rw [← hj.1]
          exact hname
        refine Or.inr ⟨a, b, ?_, ?_, hj⟩
        · exact @List.find?_cons_of_pos _ (fun d : JDir => d.name == r) a l1 ha
        · exact @List.find?_cons_of_pos _ (fun d : JDir => d.name == r) b l2 hb
      · have ha : ¬ (fun d : JDir => d.name == r) a = true := hname
        have hb : ¬ (fun d : JDir => d.name == r) b = true := by
          show ¬ (b.name == r) = true
          rw [← hj.1]
          exact hname
        rw [@List.find?_cons_of_neg _ (fun d : JDir => d.name == r) a l1 ha,
          @List.find?_cons_of_neg _ (fun d : JDir => d.name == r) b l2 hb]
        exact ih

lemma rootRows_perm {fs fs' : List JDir} (h : CorpusEquiv fs fs') (r : Str) :
    (rootRows fs r).Perm (rootRows fs' r) := by
  unfold rootRows
  rcases find?_equiv h r with ⟨h1, h2⟩ | ⟨jd, jd', h1, h2, hjd⟩
  · rw [h1, h2]
  · rw [h1, h2]
    rcases hp : parse_judge_folder r with ⟨o1, o2⟩
    match o1, o2 with
    | some jm, some jp => exact entriesRows_perm jm jp hjd.2
    | some jm, none => exact List.Perm.refl []
    | none, some jp => exact List.Perm.refl []
    | none, none => exact List.Perm.refl []

lemma walk_rows_perm {fs fs' : List JDir} (h : CorpusEquiv fs fs') {rows rows' : List Entries}
    (h1 : runWalk fs = .ok rows) (h2 : runWalk fs' = .ok rows') : rows.Perm rows' := by
  rw [walkRoots_ok fs ROOTS rows h1, walkRoots_ok fs' ROOTS rows' h2]
  apply flatten_perm_of_forall2
  have hgen : ∀ names : List Str, List.Forall₂ (fun a b => a.Perm b)
      (names.map (rootRows fs)) (names.map (rootRows fs')) := by
    intro names
    induction names with
    | nil => exact .nil
    | cons n tl ih => exact .cons (rootRows_perm h n) ih
  exact hgen ROOTS

lemma scoreKeySet_perm {rows rows' : List Entries} (h : rows.Perm rows') :
    (scoreKeySet rows).Perm (scoreKeySet rows') := by
  unfold scoreKeySet
  exact ((h.map rowScoreKeys).flatten).dedup

lemma fieldnames_eq_of_perm {rows rows' : List Entries} (h : rows.Perm rows') :
    fieldnamesOf rows = fieldnamesOf rows' := by
  unfold fieldnamesOf
  congr 1
  refine List.eq_of_perm_of_sorted ?_
    (List.sorted_insertionSort _ _) (List.sorted_insertionSort _ _)
  exact (List.perm_insertionSort _ _).trans
    ((scoreKeySet_perm h).trans (List.perm_insertionSort _ _).symm)

lemma mem_scoreKeySet (rows : List Entries) (k : Str) :
    k ∈ scoreKeySet rows ↔ ∃ r ∈ rows, k ∈ rowScoreKeys r := by
  unfold scoreKeySet
  rw [List.mem_dedup, List.mem_flatten]
  constructor
  · rintro ⟨l, hl, hk⟩
    rw [List.mem_map] at hl
    obtain ⟨r, hr, rfl⟩ := hl
    exact ⟨r, hr, hk⟩
  · rintro ⟨r, hr, hk⟩
    exact ⟨rowScoreKeys r, List.mem_map_of_mem _ hr, hk⟩

/-! ## Lemmas on the aggregator -/

/-- The output row `average_scores` emits for one grouping key. -/
def outRowFor (df : DFrame) (k : List Cell) : List (Str × Cell) :=
  List.zip group_columns k ++ score_columns.map (fun c => (c, aggCell df k c))

lemma average_scores_ok {df out : DFrame} (h : average_scores df = .ok out) :
    out.cols = group_columns ++ score_columns ∧
    out.rows = (sortedKeys df).map (outRowFor df) := by
  unfold average_scores at h
  split_ifs at h
  cases h
  exact ⟨rfl, rfl⟩

lemma length_rowKey (r : List (Str × Cell)) : (rowKey r).length = 4 := rfl

lemma sortedKeys_nodup (df : DFrame) : (sortedKeys df).Nodup :=
  (List.perm_insertionSort _ _).symm.nodup (List.nodup_dedup _)

lemma mem_sortedKeys {df : DFrame} {k : List Cell} :
    k ∈ sortedKeys df ↔ (k ∈ df.rows.map rowKey ∧ keyHasNA k = false) := by
  unfold sortedKeys
  rw [(List.perm_insertionSort _ _).mem_iff, List.mem_dedup, List.mem_filter,
    Bool.not_eq_true']

lemma countP_eq_one_of_nodup_mem {α : Type} [DecidableEq α] :
    ∀ {l : List α} {a : α}, l.Nodup → a ∈ l → l.countP (fun x => decide (x = a)) = 1 := by
  intro l
  induction l with
  | nil => intro a _ ha; cases ha
  | cons b l' ih =>
      intro a hnd ha
      rw [List.countP_cons]
      by_cases hba : b = a
      · subst hba
        have h0 : l'.countP (fun x => decide (x = b)) = 0 := by
          rw [List.countP_eq_zero]
          intro x hx
          simp only [decide_eq_true_eq]
          intro hxb
          exact (List.nodup_cons.mp hnd).1 (hxb ▸ hx)
        simp [h0]
      · have ha' : a ∈ l' := by
          rcases List.mem_cons.mp ha with h | h
          · exact absurd h.symm hba
          · exact h
        rw [ih (List.nodup_cons.mp hnd).2 ha']
        simp [hba]

lemma zip_prefix_eq {k k' : List Cell} (hk : k.length = 4) (hk' : k'.length = 4)
    {rest : List (Str × Cell)}
    (h : List.zip group_columns k <+: List.zip group_columns k' ++ rest) : k = k' := by
  have hgc : group_columns.length = 4 := rfl
  have l1 : (List.zip group_columns k).length = 4 := by
    rw [List.length_zip, hgc, hk]
    exact Nat.min_self 4
  have l2 : (List.zip group_columns k').length = 4 := by
    rw [List.length_zip, hgc, hk']
    exact Nat.min_self 4
  obtain ⟨t, ht⟩ := h
  have hzip : List.zip group_columns k = List.zip group_columns k' := by
    calc List.zip group_columns k
        = (List.zip group_columns k ++ t).take 4 := by
          rw [show (4 : Nat) = (List.zip group_columns k).length from l1.symm, List.take_left]
      _ = (List.zip group_columns k' ++ rest).take 4 := by rw [ht]
      _ = List.zip group_columns k' := by
          rw [show (4 : Nat) = (List.zip group_columns k').length from l2.symm, List.take_left]
  have := congrArg (List.map Prod.snd) hzip
  rwa [List.map_snd_zip _ _ (by rw [hgc, hk]), List.map_snd_zip _ _ (by rw [hgc, hk'])] at this

/-! ## Concrete corpora used by the claims -/

/-- The judgement document of the end-to-end scenario:
`{"hallucination": {"score": 8}, "total_score": 42}`. -/
def objC1 : JObj :=
  .ocons "hallucination".toList (.vobj (.ocons "score".toList (.vint 8) .onil))
    (.ocons "total_score".toList (.vint 42) .onil)

/-- The scenario corpus: one root `gemini_judge_results_basic` holding one
subdirectory `results_anthropic_short` holding one file `paper1_judge.json`. -/
def fsC1 : List JDir :=
  [⟨"gemini_judge_results_basic".toList,
    [⟨"results_anthropic_short".toList, true,
      [⟨"paper1_judge.json".toList, some objC1⟩]⟩]⟩]

/-- The row the walker builds for the scenario corpus. -/
def rowC1 : Entries :=
  [("paper_id".toList, .vstr "paper1".toList),
   ("judge_model".toList, .vstr "gemini".toList),
   ("judge_prompt".toList, .vstr "basic".toList),
   ("generator_model".toList, .vstr "anthropic".toList),
   ("summary_style".toList, .vstr "short".toList),
   ("hallucination.score".toList, .vint 8)]

/-- Claim C1: on the scenario corpus the walker produces exactly one row
with `paper_id=paper1`, `judge_model=gemini`, `judge_prompt=basic`,
`generator_model=anthropic`, `summary_style=short` and
`hallucination.score=8` — but, contrary to the claim, no `total_score`
field: the row keeps only flattened keys that end in the literal
`".score"`, and `"total_score"` does not, so the top-level `total_score`
leaf of the judgement file is dropped, even though the downstream
aggregator hardcodes a `total_score` column of this very table. -/
theorem claim_C1 :
    runWalk fsC1 = .ok [rowC1] ∧
    getVal? rowC1 "paper_id".toList = some (.vstr "paper1".toList) ∧
    getVal? rowC1 "judge_model".toList = some (.vstr "gemini".toList) ∧
    getVal? rowC1 "judge_prompt".toList = some (.vstr "basic".toList) ∧
    getVal? rowC1 "generator_model".toList = some (.vstr "anthropic".toList) ∧
    getVal? rowC1 "summary_style".toList = some (.vstr "short".toList) ∧
    getVal? rowC1 "hallucination.score".toList = some (.vint 8) ∧
    getVal? rowC1 "total_score".toList = none ∧
    "total_score".toList ∉ rowC1.map Prod.fst := by
  refine ⟨rfl, rfl, rfl, rfl, rfl, rfl, rfl, rfl, ?_⟩
  decide

/-- Claim C3, counterexample: the first regex group is greedy, so on a
name containing two separator occurrences the decoder does not return the
decomposition at the first occurrence: for `A = "a"`,
`B = "b_judge_results_c"` it returns
`("a_judge_results_b", "c")`, not `(A, B)`. -/
theorem counterexample_C3 :
    parse_judge_folder ("a".toList ++ sepJR ++ "b_judge_results_c".toList) ≠
      (some "a".toList, some "b_judge_results_c".toList) ∧
    parse_judge_folder ("a".toList ++ sepJR ++ "b_judge_results_c".toList) =
      (some "a_judge_results_b".toList, some "c".toList) := by
  refine ⟨by decide, by decide⟩

/-- Claim C3 (amended): for every root name of the form
`<A>_judge_results_<B>` in which the separator occurs only once and `A`,
`B` contain no newline, the decoder returns exactly `(A, B)`; for every
string not containing the separator it returns the sentinel
`(None, None)`. -/
theorem claim_C3 :
    (∀ A B : Str, (∀ c ∈ A, c ≠ '\n') → (∀ c ∈ B, c ≠ '\n') →
      (∀ p < (A ++ sepJR ++ B).length + 1,
        sepJR.isPrefixOf ((A ++ sepJR ++ B).drop p) → p = A.length) →
      parse_judge_folder (A ++ sepJR ++ B) = (some A, some B)) ∧
    (∀ name : Str, (∀ p < name.length, ¬ sepJR.isPrefixOf (name.drop p)) →
      parse_judge_folder name = (none, none)) :=
  ⟨parse_judge_folder_split, parse_judge_folder_nomatch⟩

theorem claim_C3_witness :
    parse_judge_folder ("gemini".toList ++ sepJR ++ "basic".toList) =
      (some "gemini".toList, some "basic".toList) ∧
    parse_judge_folder "nomatch".toList = (none, none) :=
  ⟨claim_C3.1 "gemini".toList "basic".toList (by decide) (by decide) (by decide),
   claim_C3.2 "nomatch".toList (by decide)⟩

/-- Claim C4, counterexample: `replace("results_", "")` removes every
occurrence of the token, not only a leading one: on
`results_a_results_b` the decoder returns `("a", "b")`, not the
`("a", "results_b")` the strip-leading-token reading would give. -/
theorem counterexample_C4 :
    parse_results_folder "results_a_results_b".toList ≠
      (some "a".toList, some "results_b".toList) ∧
    parse_results_folder "results_a_results_b".toList =
      (some "a".toList, some "b".toList) := by
  refine ⟨by decide, by decide⟩

/-- Claim C4 (amended): the results-subdirectory decoder removes every
occurrence of `results_` (not only a leading token), splits the remainder
on underscores, and returns the first token plus the re-joined rest; when
`results_` occurs nowhere else and the generator token has no underscore,
`results_<G>_<S>` therefore decodes to exactly `(G, S)`; it fails with
`(None, None)` when fewer than two tokens remain. -/
theorem claim_C4 :
    (∀ G S : Str, '_' ∉ G →
      (∀ p < (G ++ '_' :: S).length, ¬ resTok.isPrefixOf ((G ++ '_' :: S).drop p)) →
      parse_results_folder (resTok ++ G ++ '_' :: S) = (some G, some S)) ∧
    (∀ name : Str, (splitU (removeResults name)).length < 2 →
      parse_results_folder name = (none, none)) := by
  constructor
  · intro G S hG h
    unfold parse_results_folder
    have h1 : removeResults (resTok ++ G ++ '_' :: S) = G ++ '_' :: S := by
      rw [List.append_assoc]
      have hme : removeResults (resTok ++ (G ++ '_' :: S)) =
          removeResults (G ++ '_' :: S) := rfl
      rw [hme, removeResults_intact _ h]
    rw [h1, splitU_sep G S hG]
    obtain ⟨t, ts, hts⟩ : ∃ t ts, splitU S = t :: ts := by
      cases hcase : splitU S with
      | nil => exact absurd hcase (splitU_ne_nil S)
      | cons t ts => exact ⟨t, ts, rfl⟩
    rw [hts]
    show (some G, some (joinU (t :: ts))) = (some G, some S)
    rw [← hts, joinU_splitU]
  · intro name h
    unfold parse_results_folder
    rcases hs : splitU (removeResults name) with _ | ⟨a, _ | ⟨b, rest⟩⟩
    · rfl
    · rfl
    · rw [hs] at h
      simp only [List.length_cons] at h
      omega

theorem claim_C4_witness :
    parse_results_folder "results_openai_long_form".toList =
      (some "openai".toList, some "long_form".toList) ∧
    parse_results_folder "results_x".toList = (none, none) :=
  ⟨claim_C4.1 "openai".toList "long_form".toList (by decide) (by decide),
   claim_C4.2 "results_x".toList (by decide)⟩

/-- Claim C6: when the walk over all roots produces zero rows, the run
fails with the explicit no-data error; no output is emitted (the `ok`
payload is the only write). -/
theorem claim_C6 : ∀ fs : List JDir, runWalk fs = .ok [] →
    generateCsv fs = .error noRowsMsg := by
  intro fs h
  unfold generateCsv
  rw [h]

theorem claim_C6_witness : generateCsv [] = .error noRowsMsg :=
  claim_C6 [] rfl

/-- The judgement document used by the C8 counterexample corpus. -/
def objC8 : JObj :=
  .ocons "hallucination".toList (.vobj (.ocons "score".toList (.vint 5) .onil)) .onil

/-- A corpus with a judgement file `a_judge_b.json` whose stem has no
trailing `_judge` marker. -/
def fsC8 : List JDir :=
  [⟨"gemini_judge_results_basic".toList,
    [⟨"results_openai_long".toList, true,
      [⟨"a_judge_b.json".toList, some objC8⟩]⟩]⟩]

/-- The row the walker builds for the C8 corpus. -/
def rowC8 : Entries :=
  [("paper_id".toList, .vstr "a_b".toList),
   ("judge_model".toList, .vstr "gemini".toList),
   ("judge_prompt".toList, .vstr "basic".toList),
   ("generator_model".toList, .vstr "openai".toList),
   ("summary_style".toList, .vstr "long".toList),
   ("hallucination.score".toList, .vint 5)]

/-- Claim C8, counterexample: the stem `a_judge_b` has no trailing
`_judge` marker, so per the claim it should be left intact; the code
removes the inner `_judge` occurrence and emits `paper_id = "a_b"`. -/
theorem counterexample_C8 :
    runWalk fsC8 = .ok [rowC8] ∧
    getVal? rowC8 "paper_id".toList = some (.vstr "a_b".toList) ∧
    stem "a_judge_b.json".toList = "a_judge_b".toList ∧
    "a_b".toList ≠ "a_judge_b".toList := by
  refine ⟨rfl, rfl, rfl, by decide⟩

/-- Claim C8 (amended): `paper_id` is the file stem with every occurrence
of `_judge` removed, not only a trailing suffix; in particular a stem with
a single trailing `_judge` is stripped to its base, and a stem containing
no occurrence at all is left intact. -/
theorem claim_C8 :
    (∀ A : Str,
      (∀ p < (A ++ jSub).length, jSub.isPrefixOf ((A ++ jSub).drop p) → p = A.length) →
      paperIdOf (A ++ jSub ++ jsonExt) = A) ∧
    (∀ B : Str, B ≠ [] → (∀ p < B.length, ¬ jSub.isPrefixOf (B.drop p)) →
      paperIdOf (B ++ jsonExt) = B) := by
  constructor
  · intro A h
    unfold paperIdOf
    rw [stem_json (A ++ jSub) (by simp [jSub])]
    apply removeJudge_strip
    intro p hp hpre
    have hb : p < (A ++ jSub).length + 1 := by
      rw [List.length_append]
      omega
    have := h p (by rw [List.length_append] at hb ⊢; omega) hpre
    omega
  · intro B hB h
    unfold paperIdOf
    rw [stem_json B hB]
    exact removeJudge_intact B h

theorem claim_C8_witness :
    paperIdOf ("paper1".toList ++ jSub ++ jsonExt) = "paper1".toList ∧
    paperIdOf ("nojudge".toList ++ jsonExt) = "nojudge".toList :=
  ⟨claim_C8.1 "paper1".toList (by decide),
   claim_C8.2 "nojudge".toList (by decide) (by decide)⟩

/-- Claim C9, counterexample: the corpus `fsC1` lacks the configured root
`gemini_judge_results_full`, yet the run succeeds and produces an output
file — a missing root is skipped, it does not abort the run. -/
theorem counterexample_C9 :
    (∀ d ∈ fsC1, d.name ≠ "gemini_judge_results_full".toList) ∧
    "gemini_judge_results_full".toList ∈ ROOTS ∧
    (generateCsv fsC1).toOption.isSome = true := by
  refine ⟨by decide, by decide, rfl⟩

/-- A judgement file on which `json.load` fails. -/
def badFileC9 : JFile := ⟨"broken.json".toList, none⟩

/-- A corpus whose only judgement file is malformed. -/
def fsC9 : List JDir :=
  [⟨"gemini_judge_results_basic".toList,
    [⟨"results_openai_long".toList, true, [badFileC9]⟩]⟩]

/-- Claim C9 (amended): a configured root missing from the filesystem is
skipped with a console warning and the walk continues with the remaining
roots; a judgement file that fails to parse aborts the walk immediately
with its parse error; and a walk error aborts the whole run, so no output
is written. -/
theorem claim_C9 :
    (∀ (fs : List JDir) (r : Str) (rest : List Str),
        fs.find? (fun d => d.name == r) = none →
        walkRoots fs (r :: rest) = walkRoots fs rest) ∧
    (∀ (jm jp gm ss : Str) (f : JFile) (rest : List JFile),
        jsonExt.isSuffixOf f.name = true → f.content = none →
        walkFiles jm jp gm ss (f :: rest) = .error (parseErrMsg f.name)) ∧
    (∀ (fs : List JDir) (e : Str), runWalk fs = .error e → generateCsv fs = .error e) := by
  refine ⟨?_, ?_, ?_⟩
  · intro fs r rest h
    simp only [walkRoots, h]
  · intro jm jp gm ss f rest hj hc
    simp only [walkFiles, if_pos hj, hc]
  · intro fs e h
    unfold generateCsv
    rw [h]

theorem claim_C9_witness :
    walkRoots [] ("gemini_judge_results_basic".toList :: []) = walkRoots [] [] ∧
    walkFiles "gemini".toList "basic".toList "openai".toList "long".toList [badFileC9] =
      .error (parseErrMsg "broken.json".toList) ∧
    generateCsv fsC9 = .error (parseErrMsg "broken.json".toList) :=
  ⟨claim_C9.1 [] "gemini_judge_results_basic".toList [] rfl,
   claim_C9.2.1 "gemini".toList "basic".toList "openai".toList "long".toList badFileC9 [] rfl rfl,
   claim_C9.2.2 fsC9 (parseErrMsg "broken.json".toList) rfl⟩

/-- A document with a dot-collision: the leaf path `a -> b` and the
top-level key `a.b` both flatten to the key `"a.b"`. -/
def exC5 : JObj :=
  .ocons "a".toList (.vobj (.ocons "b".toList (.vint 1) .onil))
    (.ocons "a.b".toList (.vint 2) .onil)

/-- Claim C5, counterexample: the input has two leaves (values 1 and 2)
whose dot-joined paths collide on `"a.b"`; the flattener returns a single
entry and the value 1 is lost, not kept as a leaf. -/
theorem counterexample_C5 :
    flatten_json exC5 = [("a.b".toList, JVal.vint 2)] ∧
    leafObj [] exC5 = [("a.b".toList, JVal.vint 1), ("a.b".toList, JVal.vint 2)] ∧
    (flatten_json exC5).length = 1 ∧
    (leafObj [] exC5).length = 2 :=
  ⟨rfl, rfl, rfl, rfl⟩

/-- Claim C5 (amended): for every parsed object whose dot-joined
root-to-leaf key paths are pairwise distinct, the flattener returns
exactly the association list of those paths, each mapped to its untouched
leaf value (only mapping nodes recurse; numbers, strings, booleans and
arrays are leaves); an object with no nested mappings (and distinct
paths) is returned unchanged. -/
theorem claim_C5 :
    (∀ d : JObj, ((leafObj [] d).map Prod.fst).Nodup →
      flatten_json d = leafObj [] d) ∧
    (∀ d : JObj, noNested d = true → ((leafObj [] d).map Prod.fst).Nodup →
      flatten_json d = objEntries d) := by
  have main : ∀ d : JObj, ((leafObj [] d).map Prod.fst).Nodup →
      flatten_json d = leafObj [] d := by
    intro d h
    unfold flatten_json
    have := flattenObj_spec [] [] d (by simpa using h)
    simpa using this
  refine ⟨main, ?_⟩
  intro d hn h
  rw [main d h, leafObj_of_noNested d hn]

/-- The nesting example `a -> b -> c -> 1` of the claim. -/
def objC5deep : JObj :=
  .ocons "a".toList
    (.vobj (.ocons "b".toList (.vobj (.ocons "c".toList (.vint 1) .onil)) .onil)) .onil

/-- A flat document with no nested mappings. -/
def objC5flat : JObj :=
  .ocons "x".toList (.vint 1) (.ocons "y".toList (.vstr "s".toList) .onil)

theorem claim_C5_witness :
    flatten_json objC5deep = [("a.b.c".toList, JVal.vint 1)] ∧
    flatten_json objC5flat = objEntries objC5flat :=
  ⟨(claim_C5.1 objC5deep (by decide)).trans rfl,
   claim_C5.2 objC5flat (by decide) (by decide)⟩

/-- Claim C10: the aggregator selects exactly the hardcoded seven score
columns: it raises a `KeyError` when any of them is absent from the input
frame, and the output frame's columns are always the four group columns
followed by those seven — any other column of the input is silently
dropped rather than derived from the header. -/
theorem claim_C10 :
    (∀ df : DFrame, (∃ c ∈ score_columns, c ∉ df.cols) →
        average_scores df = .error "KeyError: columns not in index".toList) ∧
    (∀ (df out : DFrame), average_scores df = .ok out →
        out.cols = group_columns ++ score_columns) := by
  constructor
  · rintro df ⟨c, hc, hnotin⟩
    unfold average_scores
    rw [if_neg]
    intro hall
    rw [List.all_eq_true] at hall
    have hcont := hall c (List.mem_append_right _ hc)
    rw [List.contains_iff_exists_mem_beq] at hcont
    obtain ⟨a, ha, hbeq⟩ := hcont
    rw [beq_iff_eq] at hbeq
    exact hnotin (hbeq ▸ ha)
  · intro df out hok
    exact (average_scores_ok hok).1

/-- A frame whose header lacks every score column. -/
def dfC10 : DFrame := ⟨group_columns, []⟩

/-- An empty frame whose header has all selected columns. -/
def dfC10ok : DFrame := ⟨group_columns ++ score_columns, []⟩

/-- The aggregator output for `dfC10ok`. -/
def outC10ok : DFrame :=
  ⟨group_columns ++ score_columns, (sortedKeys dfC10ok).map (outRowFor dfC10ok)⟩

lemma hokC10 : average_scores dfC10ok = .ok outC10ok := by
  unfold average_scores
  rw [if_pos (by decide), if_neg (by decide)]
  rfl

theorem claim_C10_witness :
    average_scores dfC10 = .error "KeyError: columns not in index".toList ∧
    outC10ok.cols = group_columns ++ score_columns :=
  ⟨claim_C10.1 dfC10 ⟨"total_score".toList, by decide, by decide⟩,
   claim_C10.2 dfC10ok outC10ok hokC10⟩

/-- Claim C2 (amended): for every input frame, a row with a missing cell
in any grouping column is dropped by `groupby` and yields no output
group; for every grouping key occurring in the frame with no missing
component, the aggregated output holds exactly one row for that group,
and that row's cell at each selected score column is the arithmetic mean
of the column's values among the group's rows where the column is present
(missing cells are excluded, not counted as zero), rounded to two decimal
places half-to-even. -/
theorem claim_C2 : ∀ (df out : DFrame), average_scores df = .ok out →
    (∀ k ∈ df.rows.map rowKey, keyHasNA k = false →
      outRowFor df k ∈ out.rows ∧
      out.rows.countP (fun r => (List.zip group_columns k).isPrefixOf r) = 1 ∧
      ∀ c ∈ score_columns,
        (c, roundCell (meanQ (presentVals df k c))) ∈ outRowFor df k) ∧
    (∀ k ∈ df.rows.map rowKey, keyHasNA k = true →
      out.rows.countP (fun r => (List.zip group_columns k).isPrefixOf r) = 0) := by
  intro df out hok
  obtain ⟨hcols, hrows⟩ := average_scores_ok hok
  constructor
  · intro k hk hna
    have hks : k ∈ sortedKeys df := mem_sortedKeys.mpr ⟨hk, hna⟩
    refine ⟨by rw [hrows]; exact List.mem_map_of_mem _ hks, ?_, ?_⟩
    · rw [hrows, List.countP_map]
      have hlen : k.length = 4 := by
        obtain ⟨r0, _, hr0⟩ := List.mem_map.mp hk
        rw [← hr0]
        exact length_rowKey r0
      have hcong : ∀ k' ∈ sortedKeys df,
          ((fun r => (List.zip group_columns k).isPrefixOf r) ∘ (outRowFor df)) k' = true ↔
          decide (k' = k) = true := by
        intro k' hk'
        have hlen' : k'.length = 4 := by
          obtain ⟨r0, _, hr0⟩ := List.mem_map.mp (mem_sortedKeys.mp hk').1
          rw [← hr0]
          exact length_rowKey r0
        show ((List.zip group_columns k).isPrefixOf (outRowFor df k') = true) ↔ _
        rw [List.isPrefixOf_iff_prefix, decide_eq_true_eq]
        constructor
        · intro hpre
          have hpre' : List.zip group_columns k <+:
              List.zip group_columns k' ++ score_columns.map (fun c => (c, aggCell df k' c)) :=
            hpre
          exact (zip_prefix_eq hlen hlen' hpre').symm
        · rintro rfl
          exact ⟨_, rfl⟩
      rw [List.countP_congr hcong]
      exact countP_eq_one_of_nodup_mem (sortedKeys_nodup df) hks
    · intro c hc
      refine List.mem_append_right _ ?_
      exact List.mem_map_of_mem _ hc
  · intro k hk hna
    rw [hrows, List.countP_map, List.countP_eq_zero]
    intro k' hk'
    obtain ⟨hk'm, hk'na⟩ := mem_sortedKeys.mp hk'
    intro hpre
    replace hpre : (List.zip group_columns k).isPrefixOf (outRowFor df k') = true := hpre
    rw [List.isPrefixOf_iff_prefix] at hpre
    have hlen : k.length = 4 := by
      obtain ⟨r0, _, hr0⟩ := List.mem_map.mp hk
      rw [← hr0]
      exact length_rowKey r0
    have hlen' : k'.length = 4 := by
      obtain ⟨r0, _, hr0⟩ := List.mem_map.mp hk'm
      rw [← hr0]
      exact length_rowKey r0
    have hpre' : List.zip group_columns k <+:
        List.zip group_columns k' ++ score_columns.map (fun c => (c, aggCell df k' c)) :=
      hpre
    have hkk : k = k' := zip_prefix_eq hlen hlen' hpre'
    rw [hkk] at hna
    rw [hna] at hk'na
    cases hk'na

/-- The grouping key shared by the concrete aggregation examples. -/
def kC2w : List Cell :=
  [Cell.cs "gemini".toList, Cell.cs "basic".toList,
   Cell.cs "anthropic".toList, Cell.cs "short".toList]

/-- First row of the witness frame: all seven score cells present,
`total_score` 40. -/
def rowC2a : List (Str × Cell) :=
  [("paper_id".toList, Cell.cs "p1".toList),
   ("judge_model".toList, Cell.cs "gemini".toList),
   ("judge_prompt".toList, Cell.cs "basic".toList),
   ("generator_model".toList, Cell.cs "anthropic".toList),
   ("summary_style".toList, Cell.cs "short".toList),
   ("completeness_and_relevance.score".toList, Cell.cq 7),
   ("factual_accuracy.score".toList, Cell.cq 8),
   ("hallucination.score".toList, Cell.cq 9),
   ("prompt_following.score".toList, Cell.cq 6),
   ("research_question.score".toList, Cell.cq 5),
   ("terminology_explanation_and_coherence.score".toList, Cell.cq 5),
   ("total_score".toList, Cell.cq 40)]

/-- Second row of the witness frame: same group, `total_score` 50, and
the `hallucination.score` cell missing. -/
def rowC2b : List (Str × Cell) :=
  [("paper_id".toList, Cell.cs "p2".toList),
   ("judge_model".toList, Cell.cs "gemini".toList),
   ("judge_prompt".toList, Cell.cs "basic".toList),
   ("generator_model".toList, Cell.cs "anthropic".toList),
   ("summary_style".toList, Cell.cs "short".toList),
   ("completeness_and_relevance.score".toList, Cell.cq 7),
   ("factual_accuracy.score".toList, Cell.cq 8),
   ("hallucination.score".toList, Cell.cna),
   ("prompt_following.score".toList, Cell.cq 6),
   ("research_question.score".toList, Cell.cq 5),
   ("terminology_explanation_and_coherence.score".toList, Cell.cq 5),
   ("total_score".toList, Cell.cq 50)]

/-- Third row of the witness frame: its `judge_model` group cell is
missing, so `groupby` drops the whole row and its `total_score` of 999
reaches no group mean. -/
def rowC2na : List (Str × Cell) :=
  [("paper_id".toList, Cell.cs "p3".toList),
   ("judge_model".toList, Cell.cna),
   ("judge_prompt".toList, Cell.cs "basic".toList),
   ("generator_model".toList, Cell.cs "anthropic".toList),
   ("summary_style".toList, Cell.cs "short".toList),
   ("total_score".toList, Cell.cq 999)]

/-- The grouping key of the dropped witness row. -/
def kC2na : List Cell :=
  [Cell.cna, Cell.cs "basic".toList,
   Cell.cs "anthropic".toList, Cell.cs "short".toList]

/-- The witness frame of the end-to-end aggregation scenario. -/
def dfC2w : DFrame :=
  ⟨"paper_id".toList :: group_columns ++ score_columns, [rowC2a, rowC2b, rowC2na]⟩

/-- The aggregator output for the witness frame. -/
def outC2w : DFrame :=
  ⟨group_columns ++ score_columns, (sortedKeys dfC2w).map (outRowFor dfC2w)⟩

lemma hokC2w : average_scores dfC2w = .ok outC2w := by
  unfold average_scores
  rw [if_pos (by decide), if_neg (by decide)]
  rfl

theorem claim_C2_witness :
    average_scores dfC2w = .ok outC2w ∧
    kC2w ∈ dfC2w.rows.map rowKey ∧
    outRowFor dfC2w kC2w ∈ outC2w.rows ∧
    presentVals dfC2w kC2w "total_score".toList = [40, 50] ∧
    ("total_score".toList, Cell.cq 45) ∈ outRowFor dfC2w kC2w ∧
    presentVals dfC2w kC2w "hallucination.score".toList = [9] ∧
    ("hallucination.score".toList, Cell.cq 9) ∈ outRowFor dfC2w kC2w ∧
    kC2na ∈ dfC2w.rows.map rowKey ∧
    outC2w.rows.countP (fun r => (List.zip group_columns kC2na).isPrefixOf r) = 0 := by
  have hk : kC2w ∈ dfC2w.rows.map rowKey := by decide
  obtain ⟨hmem, hcount, hval⟩ :=
    (claim_C2 dfC2w outC2w hokC2w).1 kC2w hk (by decide)
  have hdrop :=
    (claim_C2 dfC2w outC2w hokC2w).2 kC2na (by decide) (by decide)
  refine ⟨hokC2w, hk, hmem, rfl, ?_, rfl, ?_, by decide, hdrop⟩
  · have h45 := hval "total_score".toList (by decide)
    have hv : roundCell (meanQ (presentVals dfC2w kC2w "total_score".toList)) =
        Cell.cq 45 := by
      rw [show presentVals dfC2w kC2w "total_score".toList = [40, 50] from rfl]
      show Cell.cq (round2 (List.sum [(40 : ℚ), 50] / (([(40 : ℚ), 50].length : ℕ) : ℚ))) =
        Cell.cq 45
      congr 1
      norm_num [List.sum_cons, List.sum_nil, round2, roundHE]
    rwa [hv] at h45
  · have h9 := hval "hallucination.score".toList (by decide)
    have hv : roundCell (meanQ (presentVals dfC2w kC2w "hallucination.score".toList)) =
        Cell.cq 9 := by
      rw [show presentVals dfC2w kC2w "hallucination.score".toList = [9] from rfl]
      show Cell.cq (round2 (List.sum [(9 : ℚ)] / (([(9 : ℚ)].length : ℕ) : ℚ))) = Cell.cq 9
      congr 1
      norm_num [List.sum_cons, List.sum_nil, round2, roundHE]
    rwa [hv] at h9

/-- A row of the counterexample frame: only the group cells and a
`total_score` cell. -/
def rowC2c (pid : Str) (t : ℚ) : List (Str × Cell) :=
  [("paper_id".toList, Cell.cs pid),
   ("judge_model".toList, Cell.cs "gemini".toList),
   ("judge_prompt".toList, Cell.cs "basic".toList),
   ("generator_model".toList, Cell.cs "anthropic".toList),
   ("summary_style".toList, Cell.cs "short".toList),
   ("total_score".toList, Cell.cq t)]

/-- Three rows with `total_score` 0, 0 and 1: their mean 1/3 is not
representable in two decimal digits. -/
def dfC2c : DFrame :=
  ⟨"paper_id".toList :: group_columns ++ score_columns,
   [rowC2c "p1".toList 0, rowC2c "p2".toList 0, rowC2c "p3".toList 1]⟩

/-- The aggregator output for the counterexample frame. -/
def outC2c : DFrame :=
  ⟨group_columns ++ score_columns, (sortedKeys dfC2c).map (outRowFor dfC2c)⟩

lemma hokC2c : average_scores dfC2c = .ok outC2c := by
  unfold average_scores
  rw [if_pos (by decide), if_neg (by decide)]
  rfl

/-- Claim C2, counterexample: for the group with `total_score` values
0, 0, 1 the emitted cell is 0.33, while the arithmetic mean of the
present values is 1/3 — the output equals the rounded mean, not the
mean. -/
theorem counterexample_C2 :
    average_scores dfC2c = .ok outC2c ∧
    outRowFor dfC2c kC2w ∈ outC2c.rows ∧
    presentVals dfC2c kC2w "total_score".toList = [0, 0, 1] ∧
    ("total_score".toList, Cell.cq (33/100)) ∈ outRowFor dfC2c kC2w ∧
    (33/100 : ℚ) ≠
      (presentVals dfC2c kC2w "total_score".toList).sum /
        ((presentVals dfC2c kC2w "total_score".toList).length : ℚ) := by
  refine ⟨hokC2c, ?_, rfl, ?_, ?_⟩
  · exact List.mem_map_of_mem _ (mem_sortedKeys.mpr (by decide))
  · have hv : aggCell dfC2c kC2w "total_score".toList = Cell.cq (33/100) := by
      show roundCell (meanQ (presentVals dfC2c kC2w "total_score".toList)) = Cell.cq (33/100)
      rw [show presentVals dfC2c kC2w "total_score".toList = [0, 0, 1] from rfl]
      show Cell.cq (round2 (List.sum [(0 : ℚ), 0, 1] / (([(0 : ℚ), 0, 1].length : ℕ) : ℚ))) =
        Cell.cq (33/100)
      congr 1
      have hsum : List.sum [(0 : ℚ), 0, 1] / (([(0 : ℚ), 0, 1].length : ℕ) : ℚ) = 1/3 := by
        norm_num [List.sum_cons, List.sum_nil]
      rw [hsum]
      unfold round2 roundHE
      rw [show ((1 : ℚ)/3 * 100) = 100/3 by norm_num,
        show ⌊(100 : ℚ)/3⌋ = 33 from by norm_num]
      norm_num
    refine List.mem_append_right _ ?_
    rw [← hv]
    exact List.mem_map_of_mem _ (by decide)
  · rw [show presentVals dfC2c kC2w "total_score".toList = [0, 0, 1] from rfl]
    norm_num [List.sum_cons, List.sum_nil]

/-- Claim C7 (amended): the emitted header is always the five metadata
columns in their declared order followed by the observed `.score` keys in
ascending lexicographic order without duplicates; across two corpora with
identical directory contents the header is identical and the emitted data
records are a permutation of each other — full byte-identity fails
because the data records follow filesystem enumeration order. -/
theorem claim_C7 :
    (∀ (fs : List JDir) (rows : List Entries), runWalk fs = .ok rows → rows ≠ [] →
      generateCsv fs = .ok (writeCsv (fieldnamesOf rows) rows)) ∧
    (∀ rows : List Entries,
      fieldnamesOf rows =
        META_COLS ++ List.insertionSort (fun a b => strLE a b = true) (scoreKeySet rows) ∧
      List.Sorted (fun a b => strLE a b = true)
        (List.insertionSort (fun a b => strLE a b = true) (scoreKeySet rows)) ∧
      (List.insertionSort (fun a b => strLE a b = true) (scoreKeySet rows)).Nodup ∧
      (∀ k, k ∈ List.insertionSort (fun a b => strLE a b = true) (scoreKeySet rows) ↔
        ∃ r ∈ rows, k ∈ rowScoreKeys r)) ∧
    (∀ (fs fs' : List JDir) (rows rows' : List Entries), CorpusEquiv fs fs' →
      runWalk fs = .ok rows → runWalk fs' = .ok rows' →
      fieldnamesOf rows = fieldnamesOf rows' ∧
      (rows.map (rowLine (fieldnamesOf rows))).Perm
        (rows'.map (rowLine (fieldnamesOf rows')))) := by
  refine ⟨?_, ?_, ?_⟩
  · intro fs rows h hne
    unfold generateCsv
    rw [h]
    cases rows with
    | nil => exact absurd rfl hne
    | cons r0 rest => rfl
  · intro rows
    refine ⟨rfl, List.sorted_insertionSort _ _, ?_, ?_⟩
    · exact (List.perm_insertionSort _ _).symm.nodup (List.nodup_dedup _)
    · intro k
      rw [(List.perm_insertionSort _ _).mem_iff]
      exact mem_scoreKeySet rows k
  · intro fs fs' rows rows' hequiv h1 h2
    have hperm : rows.Perm rows' := walk_rows_perm hequiv h1 h2
    have hfeq : fieldnamesOf rows = fieldnamesOf rows' := fieldnames_eq_of_perm hperm
    refine ⟨hfeq, ?_⟩
    rw [← hfeq]
    exact hperm.map (rowLine (fieldnamesOf rows))

/-- First judgement file of the order-sensitivity corpus. -/
def fileC7a : JFile :=
  ⟨"p1_judge.json".toList,
   some (.ocons "hallucination".toList
     (.vobj (.ocons "score".toList (.vint 8) .onil)) .onil)⟩

/-- Second judgement file of the order-sensitivity corpus. -/
def fileC7b : JFile :=
  ⟨"p2_judge.json".toList,
   some (.ocons "hallucination".toList
     (.vobj (.ocons "score".toList (.vint 3) .onil)) .onil)⟩

/-- The order-sensitivity corpus with files enumerated `p1` first. -/
def fsC7a : List JDir :=
  [⟨"gemini_judge_results_basic".toList,
    [⟨"results_openai_long".toList, true, [fileC7a, fileC7b]⟩]⟩]

/-- The same directory contents with the files enumerated `p2` first. -/
def fsC7b : List JDir :=
  [⟨"gemini_judge_results_basic".toList,
    [⟨"results_openai_long".toList, true, [fileC7b, fileC7a]⟩]⟩]

lemma corpusEquivC7 : CorpusEquiv fsC7a fsC7b := by
  refine List.Forall₂.cons ⟨rfl, ?_⟩ List.Forall₂.nil
  refine ⟨[⟨"results_openai_long".toList, true, [fileC7a, fileC7b]⟩],
    List.Perm.refl _, ?_⟩
  refine List.Forall₂.cons ⟨rfl, rfl, ?_⟩ List.Forall₂.nil
  exact List.Perm.swap fileC7b fileC7a []

/-- The bytes the run emits over `fsC7a`. -/
def csvC7a : Str :=
  "paper_id,judge_model,judge_prompt,generator_model,summary_style,hallucination.score\r\n".toList
    ++ "p1,gemini,basic,openai,long,8\r\n".toList
    ++ "p2,gemini,basic,openai,long,3\r\n".toList

/-- The bytes the run emits over `fsC7b`. -/
def csvC7b : Str :=
  "paper_id,judge_model,judge_prompt,generator_model,summary_style,hallucination.score\r\n".toList
    ++ "p2,gemini,basic,openai,long,3\r\n".toList
    ++ "p1,gemini,basic,openai,long,8\r\n".toList

/-- Claim C7, counterexample: two runs over identical directory contents
whose files are enumerated in different orders both succeed but produce
different bytes — the data records are emitted in enumeration order. -/
theorem counterexample_C7 :
    CorpusEquiv fsC7a fsC7b ∧
    generateCsv fsC7a = .ok csvC7a ∧
    generateCsv fsC7b = .ok csvC7b ∧
    csvC7a ≠ csvC7b := by
  refine ⟨corpusEquivC7, rfl, rfl, by decide⟩

/-- The row the walker builds for `p1_judge.json` in the C7 corpus. -/
def rowC7p1 : Entries :=
  [("paper_id".toList, .vstr "p1".toList),
   ("judge_model".toList, .vstr "gemini".toList),
   ("judge_prompt".toList, .vstr "basic".toList),
   ("generator_model".toList, .vstr "openai".toList),
   ("summary_style".toList, .vstr "long".toList),
   ("hallucination.score".toList, .vint 8)]

/-- The row the walker builds for `p2_judge.json` in the C7 corpus. -/
def rowC7p2 : Entries :=
  [("paper_id".toList, .vstr "p2".toList),
   ("judge_model".toList, .vstr "gemini".toList),
   ("judge_prompt".toList, .vstr "basic".toList),
   ("generator_model".toList, .vstr "openai".toList),
   ("summary_style".toList, .vstr "long".toList),
   ("hallucination.score".toList, .vint 3)]

theorem claim_C7_witness :
    generateCsv fsC1 = .ok (writeCsv (fieldnamesOf [rowC1]) [rowC1]) ∧
    fieldnamesOf [rowC7p1, rowC7p2] = fieldnamesOf [rowC7p2, rowC7p1] ∧
    ([rowC7p1, rowC7p2].map (rowLine (fieldnamesOf [rowC7p1, rowC7p2]))).Perm
      ([rowC7p2, rowC7p1].map (rowLine (fieldnamesOf [rowC7p2, rowC7p1]))) := by
  have h1 := claim_C7.1 fsC1 [rowC1] rfl (by simp)
  have h3 := claim_C7.2.2 fsC7a fsC7b [rowC7p1, rowC7p2] [rowC7p2, rowC7p1]
    corpusEquivC7 rfl rfl
  exact ⟨h1, h3.1, h3.2⟩

example : removeResults "results_anthropic_short".toList = "anthropic_short".toList := rfl
example : parse_results_folder "results_anthropic_short".toList =
    (some "anthropic".toList, some "short".toList) := rfl
example : parse_judge_folder "gemini_judge_results_basic".toList =
    (some "gemini".toList, some "basic".toList) := rfl
example : stem "paper1_judge.json".toList = "paper1_judge".toList := rfl
example : paperIdOf "paper1_judge.json".toList = "paper1".toList := rfl
